import Mathlib

/-!
Shallow embedding of the TLV presentation layer of the `internet2` crate
(`src/presentation/tlv.rs`), together with the external collaborators it
relies on (the BigSize varint codec of the `lightning_encoding` crate and
the little-endian primitives of the `strict_encoding` crate, both declared
out of scope by the design document and assumed correct, so they are
modelled here directly from their documented wire formats).

Bytes are modelled as `Nat` (each value below 256 on every real input),
byte buffers as `List Nat`, readers as explicit input lists from which each
decoder returns the value it parsed together with the unread suffix, and
fallible routines return `Except`.
-/

/-- Errors of the `lightning_encoding` collaborator crate, as observed by
the code under verification.  `bigSizeNoValue` is the signal that no bytes
remain at the start of a BigSize integer (the source matches it as
`BigSizeNoValue` in `Stream::lightning_decode` and as `BigSizeEof` in
`Unmarshaller::unmarshall`; both call sites treat it as the clean
end-of-stream terminator, so it is one constructor here).
`tlvRepeated`/`tlvOrder` model `strict_encoding::TlvError` values converted
into `lightning_encoding::Error` by the `.into()` calls of
`Stream::lightning_decode`, and `ioError` models `Error::Io` raised by a
failed `read_exact`. -/
inductive LnErr
  | bigSizeNoValue
  | bigSizeUnexpectedEof
  | bigSizeNotCanonical
  | ioError
  | tlvRepeated (t : Nat)
  | tlvOrder (read maxSeen : Nat)
deriving DecidableEq

/-- Big-endian fixed-width byte encoding used inside BigSize: `beEncode k n`
is the `k`-byte big-endian form of `n` (truncated modulo `256 ^ k`, which
never happens on the u64 values the source feeds it). -/
def beEncode : Nat → Nat → List Nat
  | 0, _ => []
  | k + 1, n => n / 256 ^ k % 256 :: beEncode k n

/-- Big-endian fixed-width decode: reads `k` bytes, returns the value and
the unread suffix, or `none` when fewer than `k` bytes remain. -/
def beDecode : Nat → List Nat → Option (Nat × List Nat)
  | 0, bs => some (0, bs)
  | _ + 1, [] => none
  | k + 1, b :: bs => (beDecode k bs).map fun p => (b * 256 ^ k + p.1, p.2)

/-- BigSize encoder of the `lightning_encoding` collaborator (out of scope,
modelled from the documented canonical varint format: 1 byte for 0..252,
marker 253 plus 2 bytes big-endian, marker 254 plus 4 bytes, marker 255
plus 8 bytes). -/
def bigSizeEncode (n : Nat) : List Nat :=
  if n < 253 then [n]
  else if n < 65536 then 253 :: beEncode 2 n
  else if n < 4294967296 then 254 :: beEncode 4 n
  else 255 :: beEncode 8 n

/-- BigSize decoder of the `lightning_encoding` collaborator: fails with
`bigSizeNoValue` when no bytes remain at all, with `bigSizeUnexpectedEof`
when the marker announces more bytes than remain, and with
`bigSizeNotCanonical` when a wider form was used where a narrower one
would suffice. -/
def bigSizeDecode : List Nat → Except LnErr (Nat × List Nat)
  | [] => .error .bigSizeNoValue
  | b :: bs =>
    if b < 253 then .ok (b, bs)
    else if b = 253 then
      match beDecode 2 bs with
      | none => .error .bigSizeUnexpectedEof
      | some (v, r) =>
        if v < 253 then .error .bigSizeNotCanonical else .ok (v, r)
    else if b = 254 then
      match beDecode 4 bs with
      | none => .error .bigSizeUnexpectedEof
      | some (v, r) =>
        if v < 65536 then .error .bigSizeNotCanonical else .ok (v, r)
    else
      match beDecode 8 bs with
      | none => .error .bigSizeUnexpectedEof
      | some (v, r) =>
        if v < 4294967296 then .error .bigSizeNotCanonical else .ok (v, r)

/-- Model of `Read::read_exact` into a fresh buffer of `n` bytes: returns
the buffer and the unread suffix, or `none` (an I/O error) when fewer than
`n` bytes remain. -/
def takeExact (n : Nat) (bs : List Nat) : Option (List Nat × List Nat) :=
  if n ≤ bs.length then some (bs.take n, bs.drop n) else none

/-- The `Stream` data model of `tlv.rs`: a `BTreeMap<Type, RawValue>` is
represented as its ascending-key association list; a TLV `Type` is a u64
(`Nat` here, bounded by `2 ^ 64` where it matters) and a `RawValue` is a
raw byte buffer. -/
abbrev TlvStream := List (Nat × List Nat)

/-- Model of `BTreeMap::contains_key`. -/
def containsKey (l : TlvStream) (k : Nat) : Bool :=
  l.any fun p => p.1 == k

/-- Model of `self.keys().max()` on a `BTreeMap` represented as an
association list. -/
def keysMax : TlvStream → Option Nat
  | [] => none
  | (k, _) :: t =>
    some (match keysMax t with
      | none => k
      | some m => max k m)

/-- Model of `BTreeMap::insert`: inserts in key order, replacing any
existing entry, and returns the previous value for the key (`none` when
the key was absent), exactly the `Option` the source inspects. -/
def btreeInsert (k : Nat) (v : List Nat) : TlvStream → TlvStream × Option (List Nat)
  | [] => ([(k, v)], none)
  | (k₂, v₂) :: t =>
    if k < k₂ then ((k, v) :: (k₂, v₂) :: t, none)
    else if k = k₂ then ((k, v) :: t, some v₂)
    else
      let r := btreeInsert k v t
      ((k₂, v₂) :: r.1, r.2)

/-- Model of `Stream::insert` (tlv.rs:134-139): performs the map insertion
and reports `is_none()` of the previous value, i.e. whether the key was
new. -/
def streamInsert (s : TlvStream) (k : Nat) (v : List Nat) : TlvStream × Bool :=
  let r := btreeInsert k v s
  (r.1, r.2.isNone)

/-- Model of `RawValue::lightning_encode` (tlv.rs:84-95): writes the
BigSize-encoded byte length followed by the value bytes.  The first
component is the bytes written; the second is the `usize` the source
returns, namely `self.len() + count.into_inner()` where
`count = BigSize::from(self.len())`, so `into_inner()` is the length value
itself, not the size of its BigSize encoding. -/
def rawValueLightningEncode (v : List Nat) : List Nat × Nat :=
  (bigSizeEncode v.length ++ v, v.length + v.length)

/-- Model of `RawValue::lightning_decode` (tlv.rs:97-106): reads a BigSize
count, then unconditionally reads exactly that many bytes into a fresh
buffer of the declared size (`vec![0u8; count]` followed by `read_exact`);
there is no check of the count against any maximum, and a short read
surfaces as the crate's I/O error. -/
def rawValueLightningDecode (bs : List Nat) : Except LnErr (List Nat × List Nat) :=
  match bigSizeDecode bs with
  | .error e => .error e
  | .ok (count, rest) =>
    match takeExact count rest with
    | none => .error .ioError
    | some (buf, rest₂) => .ok (buf, rest₂)

/-- Model of `Stream::lightning_encode` body for a non-empty map
(tlv.rs:187-192): for each entry in ascending key order emit the
BigSize-encoded type then the encoded value, accumulating the returned
lengths.  The type contributes the byte count actually written by the
(assumed correct) BigSize encoder; the value contributes the `usize`
returned by `RawValue::lightning_encode`. -/
def streamEncodeRecords : TlvStream → List Nat × Nat
  | [] => ([], 0)
  | (t, v) :: rest =>
    let tyBytes := bigSizeEncode t
    let vEnc := rawValueLightningEncode v
    let restEnc := streamEncodeRecords rest
    (tyBytes ++ vEnc.1 ++ restEnc.1, tyBytes.length + vEnc.2 + restEnc.2)

/-- Model of `Stream::lightning_encode` (tlv.rs:175-194): an empty stream
writes nothing and returns 0; otherwise the records are emitted in
ascending type order with no header, count or terminator. -/
def streamLightningEncode (s : TlvStream) : List Nat × Nat :=
  if s = [] then ([], 0) else streamEncodeRecords s

/-- Loop body of `Stream::lightning_decode` (tlv.rs:196-226), with an
explicit fuel argument to make the recursion structural: every iteration
of the source loop consumes at least one input byte, so
`input.length + 1` units of fuel (supplied by `streamLightningDecode`)
always suffice and the zero-fuel arm is unreachable from the entry point.
Each iteration decodes a type (end of input at this position terminates
the stream), decodes a length-prefixed raw value, rejects a repeated type
(`TlvError::Repeated`), rejects a type below the current maximum key
(`TlvError::Order`), and otherwise inserts the record. -/
def streamDecodeGo : Nat → TlvStream → List Nat → Except LnErr TlvStream
  | 0, set, _ => .ok set
  | fuel + 1, set, input =>
    match bigSizeDecode input with
    | .error .bigSizeNoValue => .ok set
    | .error e => .error e
    | .ok (ty, rest) =>
      match rawValueLightningDecode rest with
      | .error e => .error e
      | .ok (val, rest₂) =>
        if containsKey set ty then .error (.tlvRepeated ty)
        else
          match keysMax set with
          | some m =>
            if m > ty then .error (.tlvOrder ty m)
            else streamDecodeGo fuel (btreeInsert ty val set).1 rest₂
          | none => streamDecodeGo fuel (btreeInsert ty val set).1 rest₂

/-- Model of `Stream::lightning_decode` (tlv.rs:196-226): runs the record
loop on an initially empty map. -/
def streamLightningDecode (input : List Nat) : Except LnErr TlvStream :=
  streamDecodeGo (input.length + 1) [] input

/-- Errors of the presentation layer (`super::Error`) as used by
`Unmarshaller::unmarshall` and `Unmarshaller::raw_parser`; `lightning`
wraps an error converted from the `lightning_encoding` crate. -/
inductive UError
  | lightning (e : LnErr)
  | tlvStreamWrongOrder
  | tlvStreamDuplicateItem
  | tlvRecordEvenType
  | tlvRecordInvalidLen
  | invalidValue
deriving DecidableEq

/-- Modelled from the spec: the configured global maximum record length
(`LNP_MSG_MAX_LEN`, a crate-root constant whose definition is outside the
sources provided under `src/`); the design document describes it as the
global allocation guard supplied by the surrounding protocol, and the
Lightning message size limit referenced by the source comments is 65535
bytes. -/
def LNP_MSG_MAX_LEN : Nat := 65535

/-- Result of an `UnmarshallFn`, i.e. the `Arc<dyn Any>` a per-type parser
returns.  The only parser an `Unmarshaller` ever holds
(`Unmarshaller::raw_parser`) stores a `RawValue`. -/
inductive AnyVal
  | rawValue (bytes : List Nat)
deriving DecidableEq

/-- Model of `rec.downcast_ref::<&[u8]>()` at tlv.rs:305: the `dyn Any`
produced by `raw_parser` holds a `RawValue`, whose `TypeId` differs from
that of `&[u8]`, so the downcast always fails. -/
def downcastRefByteSlice : AnyVal → Option (List Nat)
  | .rawValue _ => none

/-- Model of `Unmarshaller::raw_parser` (tlv.rs:324-349): decodes the
BigSize length, fails with `TlvRecordInvalidLen` when it exceeds
`LNP_MSG_MAX_LEN` before any value byte is read, then reads exactly that
many bytes, mapping a short read to `TlvRecordInvalidLen` as well, and
wraps the buffer as the `RawValue` stored in the returned `Any`. -/
def rawParser (bs : List Nat) : Except UError (AnyVal × List Nat) :=
  match bigSizeDecode bs with
  | .error e => .error (.lightning e)
  | .ok (len, rest) =>
    if len > LNP_MSG_MAX_LEN then .error .tlvRecordInvalidLen
    else
      match takeExact len rest with
      | none => .error .tlvRecordInvalidLen
      | some (buf, rest₂) => .ok (.rawValue buf, rest₂)

/-- Loop body of `Unmarshaller::unmarshall` (tlv.rs:243-312) for the only
constructible `Unmarshaller` (`Unmarshaller::new`, whose `known_types`
table is empty, so the known-type branch never fires), with fuel exactly
as in `streamDecodeGo`.  Each iteration decodes a type (end of input
terminates), fails with `TlvStreamWrongOrder` when the decoded type is
greater than the previous one (the guard `type_id > prev_type_id` of
tlv.rs:261, transcribed as written), fails with `TlvStreamDuplicateItem`
on a repeated type, fails with `TlvRecordEvenType` on an unknown even
type, and otherwise runs `raw_parser` and downcasts the result before
inserting it. -/
def unmarshallGo : Nat → TlvStream → Nat → List Nat → Except UError TlvStream
  | 0, tlv, _, _ => .ok tlv
  | fuel + 1, tlv, prev, input =>
    match bigSizeDecode input with
    | .error .bigSizeNoValue => .ok tlv
    | .error e => .error (.lightning e)
    | .ok (tyId, rest) =>
      if tyId > prev then .error .tlvStreamWrongOrder
      else if containsKey tlv tyId then .error .tlvStreamDuplicateItem
      else if tyId % 2 = 0 then .error .tlvRecordEvenType
      else
        match rawParser rest with
        | .error e => .error e
        | .ok (rec, rest₂) =>
          match downcastRefByteSlice rec with
          | none => .error .invalidValue
          | some buf => unmarshallGo fuel (btreeInsert tyId buf tlv).1 tyId rest₂

/-- Model of `Unmarshaller::unmarshall` (tlv.rs:243-312): starts with an
empty stream and `prev_type_id = Type(0)`. -/
def unmarshall (input : List Nat) : Except UError TlvStream :=
  unmarshallGo (input.length + 1) [] 0 input

/-- Errors of the `strict_encoding` collaborator crate as classified by
`Stream::strict_decode`: `io` stands for every `Error::Io(_)` and
`dataError` for every other variant of the crate's error type. -/
inductive SErr
  | io
  | dataError
deriving DecidableEq

/-- Little-endian fixed-width decode used by the `strict_encoding`
collaborator (u16 and u64 primitives). -/
def leDecode : Nat → List Nat → Option (Nat × List Nat)
  | 0, bs => some (0, bs)
  | _ + 1, [] => none
  | k + 1, b :: bs => (leDecode k bs).map fun p => (b + 256 * p.1, p.2)

/-- Strict decode of a `Type` (derived `StrictDecode` on a `u64` newtype):
eight little-endian bytes; a short read is an I/O error. -/
def u64StrictDecode (bs : List Nat) : Except SErr (Nat × List Nat) :=
  match leDecode 8 bs with
  | none => .error .io
  | some r => .ok r

/-- Strict decode of a `RawValue` (derived `StrictDecode` on a
`Box<[u8]>`): a little-endian u16 length followed by that many bytes; a
short read is an I/O error. -/
def rawValueStrictDecode (bs : List Nat) : Except SErr (List Nat × List Nat) :=
  match leDecode 2 bs with
  | none => .error .io
  | some (len, rest) =>
    match takeExact len rest with
    | none => .error .io
    | some (buf, rest₂) => .ok (buf, rest₂)

/-- Pair-reading loop of the collaborator `BTreeMap::strict_decode`:
decodes the announced number of (key, value) pairs, inserting each into
the map. -/
def mapPairsDecode : Nat → TlvStream → List Nat → Except SErr TlvStream
  | 0, m, _ => .ok m
  | n + 1, m, bs =>
    match u64StrictDecode bs with
    | .error e => .error e
    | .ok (k, r₁) =>
      match rawValueStrictDecode r₁ with
      | .error e => .error e
      | .ok (v, r₂) => mapPairsDecode n (btreeInsert k v m).1 r₂

/-- The collaborator `BTreeMap::strict_decode` called by
`Stream::strict_decode`: a little-endian u16 element count followed by
that many (Type, RawValue) pairs; on the truncated or absent inputs that
matter here its only failure mode is an I/O error. -/
def btreeMapStrictDecode (bs : List Nat) : Except SErr TlvStream :=
  match leDecode 2 bs with
  | none => .error .io
  | some (count, rest) => mapPairsDecode count [] rest

/-- The match of `Stream::strict_decode` (tlv.rs:165-173) over the result
of the inner `BTreeMap::strict_decode`: a successful map becomes the
stream, every `Error::Io(_)` becomes a successful empty stream
(`Ok(Self::default())`), and every other error is propagated. -/
def streamStrictDecodeWith : Except SErr TlvStream → Except SErr TlvStream
  | .ok m => .ok m
  | .error .io => .ok []
  | .error e => .error e

/-- Model of `Stream::strict_decode` (tlv.rs:165-173). -/
def streamStrictDecode (bs : List Nat) : Except SErr TlvStream :=
  streamStrictDecodeWith (btreeMapStrictDecode bs)

/-- Modelled from the spec: the closed message-kind set of the
registry-based message codec scenario (the codec itself is generated by
the `derive` crate, whose implementation is outside the sources provided
under `src/`; only its test `derive/tests/lnp_api_lightning.rs` is).  The
two variants the scenarios name are the one with type code 0x0001
carrying a length-prefixed string payload and the one with type code
0x0005 carrying no payload. -/
inductive Request
  | hello (msg : List Nat)
  | noArgs
deriving DecidableEq

/-- Modelled from the spec: message encoding writes the fixed-width
(two-byte big-endian) type code of the variant followed by the variant's
payload; the string payload is written as its BigSize-encoded length
followed by its bytes, and the no-payload variant contributes nothing
after the code. -/
def requestSerialize : Request → List Nat
  | .hello msg => [0, 1] ++ bigSizeEncode msg.length ++ msg
  | .noArgs => [0, 5]

/-- Errors of the message-level registry decode. -/
inductive MsgError
  | unknownMessageType (code : Nat)
  | lightning (e : LnErr)
deriving DecidableEq

/-- Modelled from the spec: registry-based message decoding reads the
fixed-width two-byte big-endian type code, fails with an
unknown-message-type error when no registry entry matches, and otherwise
invokes the matched variant's payload decoder on the remaining bytes. -/
def requestUnmarshall (bs : List Nat) : Except MsgError Request :=
  match beDecode 2 bs with
  | none => .error (.lightning .bigSizeUnexpectedEof)
  | some (code, rest) =>
    if code = 1 then
      match rawValueLightningDecode rest with
      | .error e => .error (.lightning e)
      | .ok (msg, _) => .ok (.hello msg)
    else if code = 5 then .ok .noArgs
    else .error (.unknownMessageType code)

/-!
Helper lemmas shared by the claim theorems below.
-/

theorem beDecode_beEncode_append (k n : Nat) (tail : List Nat) :
    beDecode k (beEncode k n ++ tail) = some (n % 256 ^ k, tail) := by
  induction k with
  | zero => simp [beEncode, beDecode, Nat.mod_one]
  | succ k ih =>
    simp only [beEncode, beDecode, List.cons_append, List.append_eq, ih]
    have key : n / 256 ^ k % 256 * 256 ^ k + n % 256 ^ k = n % 256 ^ (k + 1) := by
      rw [pow_succ, Nat.mod_mul]
      ring
    simp [key]

theorem bigSizeEncode_length_pos (n : Nat) : 1 ≤ (bigSizeEncode n).length := by
  unfold bigSizeEncode
  split_ifs <;> simp [beEncode]

theorem bigSizeDecode_encode (n : Nat) (h : n < 2 ^ 64) (tail : List Nat) :
    bigSizeDecode (bigSizeEncode n ++ tail) = .ok (n, tail) := by
  by_cases h1 : n < 253
  · simp [bigSizeEncode, bigSizeDecode, h1]
  · by_cases h2 : n < 65536
    · simp [bigSizeEncode, bigSizeDecode, h1, h2, beDecode_beEncode_append,
        Nat.mod_eq_of_lt h2]
    · by_cases h3 : n < 4294967296
      · simp [bigSizeEncode, bigSizeDecode, h1, h2, h3, beDecode_beEncode_append,
          Nat.mod_eq_of_lt h3]
      · have h8 : n < 18446744073709551616 := by
          have h64 : (2 : Nat) ^ 64 = 18446744073709551616 := by norm_num
          omega
        simp [bigSizeEncode, bigSizeDecode, h1, h2, h3, beDecode_beEncode_append,
          Nat.mod_eq_of_lt h8]

theorem takeExact_append (v rest : List Nat) :
    takeExact v.length (v ++ rest) = some (v, rest) := by
  simp [takeExact, List.take_left, List.drop_left, Nat.le_add_right]

theorem rawValueLightningDecode_encode (v : List Nat) (h : v.length < 2 ^ 64)
    (tail : List Nat) :
    rawValueLightningDecode ((rawValueLightningEncode v).1 ++ tail) = .ok (v, tail) := by
  simp only [rawValueLightningEncode, rawValueLightningDecode, List.append_assoc,
    bigSizeDecode_encode v.length h]
  rw [takeExact_append]

theorem containsKey_eq_false_of_ne (set : TlvStream) (k : Nat)
    (h : ∀ p ∈ set, p.1 ≠ k) : containsKey set k = false := by
  simp only [containsKey, List.any_eq_false]
  intro p hp
  simpa using h p hp

theorem keysMax_lt (set : TlvStream) (k : Nat) (h : ∀ p ∈ set, p.1 < k) :
    ∀ m, keysMax set = some m → m < k := by
  induction set with
  | nil => intro m hm; simp [keysMax] at hm
  | cons a t ih =>
    obtain ⟨k₂, v₂⟩ := a
    intro m hm
    have hk₂ : k₂ < k := h (k₂, v₂) (by simp)
    cases ht : keysMax t with
    | none => simp [keysMax, ht] at hm; omega
    | some m₂ =>
      have hm₂ : m₂ < k := ih (fun p hp => h p (List.mem_cons_of_mem _ hp)) m₂ ht
      simp [keysMax, ht] at hm
      omega

theorem btreeInsert_append (set : TlvStream) (k : Nat) (v : List Nat)
    (h : ∀ p ∈ set, p.1 < k) : (btreeInsert k v set).1 = set ++ [(k, v)] := by
  induction set with
  | nil => rfl
  | cons a t ih =>
    obtain ⟨k₂, v₂⟩ := a
    have hk : k₂ < k := h (k₂, v₂) (by simp)
    simp only [btreeInsert, if_neg (Nat.lt_asymm hk), if_neg (Nat.ne_of_gt hk)]
    simp only [List.cons_append, List.cons.injEq, true_and]
    exact ih (fun p hp => h p (List.mem_cons_of_mem _ hp))

theorem streamDecodeGo_encodeRecords :
    ∀ (s set : TlvStream) (fuel : Nat),
      (streamEncodeRecords s).1.length < fuel →
      List.Pairwise (fun a b : Nat × List Nat => a.1 < b.1) (set ++ s) →
      (∀ p ∈ s, p.1 < 2 ^ 64 ∧ p.2.length < 2 ^ 64) →
      streamDecodeGo fuel set (streamEncodeRecords s).1 = .ok (set ++ s) := by
  intro s
  induction s with
  | nil =>
    intro set fuel hf _ _
    obtain ⟨f, rfl⟩ : ∃ f, fuel = f + 1 := ⟨fuel - 1, by omega⟩
    simp [streamEncodeRecords, streamDecodeGo, bigSizeDecode]
  | cons a s ih =>
    obtain ⟨t, v⟩ := a
    intro set fuel hf hp hb
    have hbt : t < 2 ^ 64 := (hb (t, v) (by simp)).1
    have hbv : v.length < 2 ^ 64 := (hb (t, v) (by simp)).2
    have hlt : ∀ p ∈ set, p.1 < t := by
      intro p hps
      exact (List.pairwise_append.mp hp).2.2 p hps (t, v) (by simp)
    obtain ⟨f, rfl⟩ : ∃ f, fuel = f + 1 := ⟨fuel - 1, by omega⟩
    have hinput : (streamEncodeRecords ((t, v) :: s)).1
        = bigSizeEncode t ++ ((rawValueLightningEncode v).1 ++ (streamEncodeRecords s).1) := by
      simp [streamEncodeRecords, List.append_assoc]
    rw [hinput]
    simp only [streamDecodeGo, bigSizeDecode_encode t hbt,
      rawValueLightningDecode_encode v hbv,
      containsKey_eq_false_of_ne set t (fun p hps => Nat.ne_of_lt (hlt p hps)),
      Bool.false_eq_true, if_false]
    have hnext : streamDecodeGo f (btreeInsert t v set).1 (streamEncodeRecords s).1
        = .ok (set ++ (t, v) :: s) := by
      rw [btreeInsert_append set t v hlt]
      have hfs : (streamEncodeRecords s).1.length < f := by
        have h1 := bigSizeEncode_length_pos t
        have hlen := hf
        rw [hinput] at hlen
        simp only [List.length_append] at hlen
        omega
      have hps : List.Pairwise (fun a b : Nat × List Nat => a.1 < b.1)
          ((set ++ [(t, v)]) ++ s) := by
        rw [List.append_assoc, List.singleton_append]
        exact hp
      have hrec := ih (set ++ [(t, v)]) f hfs hps
        (fun p hps => hb p (List.mem_cons_of_mem _ hps))
      rw [hrec, List.append_assoc, List.singleton_append]
    cases hm : keysMax set with
    | none => simpa [hm] using hnext
    | some m =>
      have hnotgt : ¬ m > t := by
        have := keysMax_lt set t hlt m hm
        omega
      simpa [hm, hnotgt] using hnext

theorem rawValueLightningDecode_sized (n : Nat) (hn : n < 2 ^ 64) (v : List Nat)
    (hv : v.length = n) :
    rawValueLightningDecode (bigSizeEncode n ++ v) = .ok (v, []) := by
  have h := rawValueLightningDecode_encode v (by rw [hv]; exact hn) []
  simp only [rawValueLightningEncode, hv, List.append_nil] at h
  exact h

/-!
Claim theorems.
-/

/-- C1 (counterexample): the claim that every routine decoding a
length-prefixed `RawValue` fails with a RecordTooLarge error when the
declared length exceeds the configured maximum is false for
`RawValue::lightning_decode`: with declared length
`LNP_MSG_MAX_LEN + 1` it succeeds outright when that many bytes are
present (returning a buffer above the maximum size), and on truncated
input it fails with the I/O error of the attempted oversized read, never
with a record-too-large error. -/
theorem rawvalue_decode_no_max_guard :
    rawValueLightningDecode (bigSizeEncode (LNP_MSG_MAX_LEN + 1)
        ++ List.replicate (LNP_MSG_MAX_LEN + 1) 0)
      = .ok (List.replicate (LNP_MSG_MAX_LEN + 1) 0, [])
    ∧ rawValueLightningDecode (bigSizeEncode (LNP_MSG_MAX_LEN + 1)) = .error .ioError := by
  constructor
  · exact rawValueLightningDecode_sized (LNP_MSG_MAX_LEN + 1) (by decide)
      (List.replicate (LNP_MSG_MAX_LEN + 1) 0) (by rw [List.length_replicate])
  · rfl

/-- C1 (amended claim): in `Unmarshaller::raw_parser`, a declared byte
length exceeding `LNP_MSG_MAX_LEN` fails with `TlvRecordInvalidLen`
(RecordTooLarge) before the value buffer is read or allocated — the error
is the same for every remaining-input suffix `bs`, in particular when
fewer than the declared number of bytes remain. -/
theorem raw_parser_oversize_guard (n : Nat) (bs : List Nat)
    (hmax : LNP_MSG_MAX_LEN < n) (hn : n < 2 ^ 64) :
    rawParser (bigSizeEncode n ++ bs) = .error .tlvRecordInvalidLen := by
  simp only [rawParser, bigSizeDecode_encode n hn]
  rw [if_pos hmax]

/-- C1 (witness): the guard of `Unmarshaller::raw_parser` fires at the
concrete declared length 65536 with no value bytes supplied at all. -/
theorem raw_parser_oversize_guard_witness :
    rawParser (bigSizeEncode 65536 ++ []) = .error .tlvRecordInvalidLen :=
  raw_parser_oversize_guard 65536 [] (by decide) (by decide)

/-- C2: on the well-formed strictly-increasing input `[0x01, 0x00]` (one
record of type 1, greater than the initial previous-type 0, with empty
value), `Unmarshaller::unmarshall` fails with `TlvStreamWrongOrder`
because the guard at tlv.rs:261 is inverted, while
`Stream::lightning_decode` decodes the record, inserts it and succeeds as
the claim demands. -/
theorem unmarshall_rejects_increasing_types :
    unmarshall [1, 0] = .error .tlvStreamWrongOrder
    ∧ streamLightningDecode [1, 0] = .ok [(1, [])] := ⟨rfl, rfl⟩

/-- C3: for `Stream::lightning_decode`, an input encoding a complete
record of type 5 followed by one of type 3 fails with the out-of-order
error `TlvError::Order` (read 3, maximum 5), and an input encoding type 5
followed by type 5 again fails with the duplicate error
`TlvError::Repeated 5`. -/
theorem stream_decode_order_and_duplicate_errors :
    streamLightningDecode [5, 1, 170, 3, 1, 187] = .error (.tlvOrder 3 5)
    ∧ streamLightningDecode [5, 1, 170, 5, 1, 187] = .error (.tlvRepeated 5) := ⟨rfl, rfl⟩

/-- C4: for the one-record stream with type 1 and empty value,
`Stream::lightning_encode` emits the two bytes `[0x01, 0x00]` but returns
the total 1, because `RawValue::lightning_encode` adds the value of the
length instead of the byte size of its BigSize encoding — the returned
total does not equal the number of bytes emitted. -/
theorem stream_encode_returned_length_mismatch :
    (streamLightningEncode [(1, [])]).1 = [1, 0]
    ∧ (streamLightningEncode [(1, [])]).1.length = 2
    ∧ (streamLightningEncode [(1, [])]).2 = 1 := ⟨rfl, rfl, rfl⟩

/-- C5: for every stream satisfying the `BTreeMap` representation
invariant (strictly ascending keys, hence duplicate-free) whose types and
value lengths fit in a u64, decoding the lightning encoding returns the
same stream. -/
theorem stream_decode_encode_roundtrip (s : TlvStream)
    (hs : List.Pairwise (fun a b : Nat × List Nat => a.1 < b.1) s)
    (hb : ∀ p ∈ s, p.1 < 2 ^ 64 ∧ p.2.length < 2 ^ 64) :
    streamLightningDecode (streamLightningEncode s).1 = .ok s := by
  have henc : (streamLightningEncode s).1 = (streamEncodeRecords s).1 := by
    by_cases h : s = [] <;> simp [streamLightningEncode, h, streamEncodeRecords]
  rw [henc]
  unfold streamLightningDecode
  have hmain := streamDecodeGo_encodeRecords s [] ((streamEncodeRecords s).1.length + 1)
    (by omega) (by simpa using hs) hb
  simpa using hmain

/-- C5 (witness): the round-trip at a concrete three-record stream whose
last type needs the two-byte BigSize form. -/
theorem stream_decode_encode_roundtrip_witness :
    streamLightningDecode (streamLightningEncode [(1, [170]), (3, []), (300, [1, 2])]).1
      = .ok [(1, [170]), (3, []), (300, [1, 2])] :=
  stream_decode_encode_roundtrip _ (by decide) (by decide)

/-- C6: encoding the empty stream emits zero bytes, and decoding a
zero-byte input yields the empty stream. -/
theorem empty_stream_identity :
    (streamLightningEncode []).1 = [] ∧ streamLightningDecode [] = .ok [] := ⟨rfl, rfl⟩

/-- C7: on a well-formed record of unknown even type 4,
`Unmarshaller::unmarshall` fails with `TlvStreamWrongOrder` instead of the
unknown-even-type error, and on a well-formed record of unknown odd type 5
it also fails with `TlvStreamWrongOrder` instead of accepting and
retaining the value: the inverted monotonicity guard at tlv.rs:261 fires
before the even/odd policy can run. -/
theorem unmarshall_unknown_type_behavior :
    unmarshall [4, 1, 170] = .error .tlvStreamWrongOrder
    ∧ unmarshall [5, 1, 170] = .error .tlvStreamWrongOrder := ⟨rfl, rfl⟩

/-- C8: the variant with type code 0x0001 carrying the length-prefixed
payload "world" serializes to exactly `00 01 05 77 6f 72 6c 64`, decoding
those bytes through the registry returns an equal value, and the
no-payload variant with type code 0x0005 serializes to exactly `00 05`. -/
theorem message_codec_scenarios :
    requestSerialize (.hello [119, 111, 114, 108, 100]) = [0, 1, 5, 119, 111, 114, 108, 100]
    ∧ requestUnmarshall [0, 1, 5, 119, 111, 114, 108, 100]
        = .ok (.hello [119, 111, 114, 108, 100])
    ∧ requestSerialize .noArgs = [0, 5] := ⟨rfl, rfl, rfl⟩

/-- C9: for every stream satisfying the `BTreeMap` representation
invariant, `Stream::insert` returns `true` exactly when the key was not
present before the call. -/
theorem stream_insert_reports_new_key (s : TlvStream) (t : Nat) (v : List Nat)
    (hs : List.Pairwise (fun a b : Nat × List Nat => a.1 < b.1) s) :
    (streamInsert s t v).2 = !containsKey s t := by
  induction s with
  | nil => rfl
  | cons a tl ih =>
    obtain ⟨k₂, v₂⟩ := a
    rcases Nat.lt_trichotomy t k₂ with h1 | h1 | h1
    · have hne : ∀ p ∈ (k₂, v₂) :: tl, p.1 ≠ t := by
        intro p hp
        rcases List.mem_cons.mp hp with rfl | hp
        · omega
        · have : k₂ < p.1 := (List.pairwise_cons.mp hs).1 p hp
          omega
      simp [streamInsert, btreeInsert, h1, containsKey_eq_false_of_ne _ _ hne]
    · subst h1
      simp [streamInsert, btreeInsert, containsKey]
    · have ihtl := ih ((List.pairwise_cons.mp hs).2)
      have hk : (k₂ == t) = false := by simp; omega
      simp only [streamInsert, btreeInsert,
        if_neg (by omega : ¬ t < k₂), if_neg (by omega : ¬ t = k₂),
        containsKey, List.any_cons, hk, Bool.false_or]
      simpa [streamInsert, containsKey] using ihtl

/-- C9 (witness): inserting an existing key (3) reports `false` and a
fresh key (2) reports `true` on a concrete two-record stream. -/
theorem stream_insert_reports_new_key_witness :
    ((streamInsert [(1, []), (3, [7])] 3 [9]).2 = !containsKey [(1, []), (3, [7])] 3)
    ∧ ((streamInsert [(1, []), (3, [7])] 2 [9]).2 = !containsKey [(1, []), (3, [7])] 2) :=
  ⟨stream_insert_reports_new_key _ 3 [9] (by decide),
   stream_insert_reports_new_key _ 2 [9] (by decide)⟩

/-- C10: in `Stream::strict_decode`, every I/O error of the underlying
map decoder is converted into a successful empty stream, every non-I/O
error is propagated unchanged, and both the truncated input `[1, 0]`
(which announces one pair and then ends) and the entirely absent input
decode to the empty stream, making them indistinguishable. -/
theorem stream_strict_decode_io_swallowed :
    (∀ bs, btreeMapStrictDecode bs = .error .io → streamStrictDecode bs = .ok [])
    ∧ (∀ r, r ≠ SErr.io → streamStrictDecodeWith (.error r) = .error r)
    ∧ streamStrictDecode [1, 0] = .ok []
    ∧ streamStrictDecode [] = .ok [] := by
  refine ⟨?_, ?_, rfl, rfl⟩
  · intro bs h
    simp [streamStrictDecode, h, streamStrictDecodeWith]
  · intro r hr
    cases r with
    | io => exact absurd rfl hr
    | dataError => rfl

/-- C10 (witness): the truncated concrete input `[1, 0]` makes the inner
map decoder fail with an I/O error, which the wrapper converts into a
successful empty stream. -/
theorem stream_strict_decode_io_swallowed_witness :
    streamStrictDecode [1, 0] = .ok [] :=
  stream_strict_decode_io_swallowed.1 [1, 0] (by rfl)
